import Mathlib

/-!
Verification of the wika-data normalization-and-merge pipeline
(`wikadata/dictionaries/collect_dictionaries.py` and
`wikadata/phrasebooks/collect_phrasebooks.py`).

JSON values loaded by `json.load(..., object_pairs_hook=OrderedDict)` are
modelled by the inductive `JValue`; an `OrderedDict` is an association list
`Obj` preserving insertion order.  Python's exceptions (`KeyError`,
`TypeError`, `AttributeError`) are modelled by `Except String`.
-/

inductive JValue where
  | null : JValue
  | bool (b : Bool) : JValue
  | num (n : Int) : JValue
  | str (s : String) : JValue
  | arr (xs : List JValue) : JValue
  | obj (fields : List (String × JValue)) : JValue
deriving Repr

abbrev Obj := List (String × JValue)

/-- First binding of key `k` in an ordered mapping (Python dict lookup). -/
def lookupKey (o : Obj) (k : String) : Option JValue :=
  match o with
  | [] => none
  | (k2, v) :: rest => if k2 = k then some v else lookupKey rest k

/-- Python `o.get(k, d)`; `o.get(k)` is `pyGet o k .null` since Python
returns `None` for a missing key. -/
def pyGet (o : Obj) (k : String) (d : JValue) : JValue :=
  match lookupKey o k with
  | some v => v
  | none => d

/-- Python `v[k]` for a string key: `KeyError` when the key is missing,
`TypeError` when `v` is not a mapping. -/
def pySubscript (v : JValue) (k : String) : Except String JValue :=
  match v with
  | .obj fs =>
    match lookupKey fs k with
    | some x => .ok x
    | none => .error ("KeyError: " ++ k)
  | _ => .error "TypeError: not subscriptable"

/-- Python iteration over a value: lists yield elements, strings yield
one-character strings, dicts yield their keys; other values raise
`TypeError`. -/
def pyIter (v : JValue) : Except String (List JValue) :=
  match v with
  | .arr xs => .ok xs
  | .str s => .ok (s.toList.map (fun c => .str (String.mk [c])))
  | .obj fs => .ok (fs.map (fun kv => .str kv.1))
  | _ => .error "TypeError: not iterable"

/-- Calling `.get` on a non-dict raises `AttributeError`. -/
def asObj (v : JValue) : Except String Obj :=
  match v with
  | .obj fs => .ok fs
  | _ => .error "AttributeError: get"

mutual

/-- Python `repr` of a JSON-shaped value (used by f-string interpolation of
non-string values). -/
def pyRepr : JValue → String
  | .null => "None"
  | .bool true => "True"
  | .bool false => "False"
  | .num n => toString n
  | .str s => "\x27" ++ s ++ "\x27"
  | .arr xs => "[" ++ String.intercalate ", " (pyReprList xs) ++ "]"
  | .obj fs => "\x7b" ++ String.intercalate ", " (pyReprObj fs) ++ "\x7d"

def pyReprList : List JValue → List String
  | [] => []
  | x :: xs => pyRepr x :: pyReprList xs

def pyReprObj : List (String × JValue) → List String
  | [] => []
  | (k, v) :: xs => ("\x27" ++ k ++ "\x27: " ++ pyRepr v) :: pyReprObj xs

end

/-- Python `str` as used by f-string interpolation. -/
def pyStr (v : JValue) : String :=
  match v with
  | .str s => s
  | other => pyRepr other

/-- A value Python considers equal to one of `[None, "", []]`
(the membership test of `filter_empty_fields`). -/
def isEmptyVal : JValue → Bool
  | .null => true
  | .str s => s == ""
  | .arr xs => xs.isEmpty
  | _ => false

/-- One aggregate group: `{"meta": ..., "entries": [...]}`. -/
structure AggGroup where
  meta : Obj
  entries : List Obj
deriving Repr

/-- The insertion-ordered mapping filename → group built by
`collect_dictionaries` / `collect_phrasebooks` (`defaultdict` + Python's
insertion-ordered `dict`). -/
abbrev MergedMap := List (String × AggGroup)

/-- `merged_data[filename]["meta"] = newMeta` followed by
`merged_data[filename]["entries"].extend(newEntries)`: update in place if
the key exists, else create the group (defaultdict) at the end. -/
def updateGroup (m : MergedMap) (k : String) (newMeta : Obj)
    (newEntries : List Obj) : MergedMap :=
  match m with
  | [] => [(k, ⟨newMeta, newEntries⟩)]
  | (k2, g) :: rest =>
    if k2 = k then (k2, ⟨newMeta, g.entries ++ newEntries⟩) :: rest
    else (k2, g) :: updateGroup rest k newMeta newEntries

/-- First group stored under key `k`. -/
def groupLookup (m : MergedMap) (k : String) : Option AggGroup :=
  match m with
  | [] => none
  | (k2, g) :: rest => if k2 = k then some g else groupLookup rest k

/-- The entry list accumulated under key `k` (empty when the key is absent,
matching the defaultdict's initial `[]`). -/
def entriesOf (m : MergedMap) (k : String) : List Obj :=
  match groupLookup m k with
  | some g => g.entries
  | none => []

/-- `main` writes one output file per item of the merged mapping,
unconditionally. -/
def outputFilenames (m : MergedMap) : List String :=
  m.map Prod.fst

namespace dictionaries

/-- `filter_empty_fields` of `collect_dictionaries.py`: remove keys whose
value is `None`, `""` or `[]`, keeping order. -/
def filter_empty_fields (data : Obj) : Obj :=
  data.filter (fun kv => !isEmptyVal kv.2)

/-- `ensure_ordered_definition`: note that Python evaluates the default
argument `meta["source_title"]` eagerly, so a meta lacking `source_title`
raises `KeyError` even when the definition carries its own value;
`source_link` uses `meta.get` and never raises. -/
def ensure_ordered_definition (definition : Obj) (meta : Obj) :
    Except String Obj := do
  let mst ← pySubscript (.obj meta) "source_title"
  let data : Obj :=
    [ ("description", pyGet definition "description" .null),
      ("pos", pyGet definition "pos" .null),
      ("origin", pyGet definition "origin" .null),
      ("usage_note", pyGet definition "usage_note" .null),
      ("synonyms", pyGet definition "synonyms" (.arr [])),
      ("antonyms", pyGet definition "antonyms" (.arr [])),
      ("inflections", pyGet definition "inflections" (.arr [])),
      ("examples", pyGet definition "examples" (.arr [])),
      ("source_title", pyGet definition "source_title" mst),
      ("source_link", pyGet definition "source_link" (pyGet meta "source_link" .null)) ]
  return filter_empty_fields data

/-- The list comprehension
`[ensure_ordered_definition(d, meta) for d in ...]`; each element must be a
dict (`d.get` raises `AttributeError` otherwise). -/
def norm_definitions (ds : List JValue) (meta : Obj) :
    Except String (List Obj) :=
  match ds with
  | [] => .ok []
  | d :: rest => do
    let o ← asObj d
    let r ← ensure_ordered_definition o meta
    let rs ← norm_definitions rest meta
    return r :: rs

/-- `ensure_ordered_entry` of `collect_dictionaries.py`:
`entry.get("definitions", [])` treats a missing key as an empty list. -/
def ensure_ordered_entry (entry : Obj) (meta : Obj) : Except String Obj := do
  let ds ← pyIter (pyGet entry "definitions" (.arr []))
  let definitions ← norm_definitions ds meta
  let data : Obj :=
    [ ("word", pyGet entry "word" .null),
      ("definitions", .arr (definitions.map .obj)) ]
  return filter_empty_fields data

/-- The generator `ensure_ordered_entry(entry, meta) for entry in entries`
consumed by `list.extend`. -/
def norm_entries (es : List JValue) (meta : Obj) : Except String (List Obj) :=
  match es with
  | [] => .ok []
  | e :: rest => do
    let o ← asObj e
    let r ← ensure_ordered_entry o meta
    let rs ← norm_entries rest meta
    return r :: rs

/-- Per-file work of the loop body of `collect_dictionaries`: read
`data["meta"]` and `data["entries"]`, build the output filename from
`meta["lang"]`/`meta["definition_lang"]`, and normalize every entry. -/
def batchParts (file : JValue) : Except String (String × Obj × List Obj) := do
  let metaV ← pySubscript file "meta"
  let entriesV ← pySubscript file "entries"
  let lang ← pySubscript metaV "lang"
  let dlang ← pySubscript metaV "definition_lang"
  let filename := "dictionary_" ++ pyStr lang ++ "_" ++ pyStr dlang ++ ".json"
  let meta ← asObj metaV
  let rawEntries ← pyIter entriesV
  let normEntries ← norm_entries rawEntries meta
  return (filename, [("lang", lang), ("definition_lang", dlang)], normEntries)

/-- `merged_data[filename]["meta"] = ...; merged_data[filename]["entries"].extend(...)`. -/
def processFile (m : MergedMap) (file : JValue) : Except String MergedMap := do
  let (filename, newMeta, normEntries) ← batchParts file
  return updateGroup m filename newMeta normEntries

/-- `collect_dictionaries`, abstracted over the list of discovered parsed
files (the glob's results, in discovery order). -/
def collect_dictionaries (files : List JValue) : Except String MergedMap :=
  files.foldlM processFile []

end dictionaries

namespace phrasebooks

/-- `filter_empty_fields` of `collect_phrasebooks.py` (identical to the
dictionaries copy). -/
def filter_empty_fields (data : Obj) : Obj :=
  data.filter (fun kv => !isEmptyVal kv.2)

/-- `ensure_ordered_translation`: both `source_title` and `source_link`
default via `meta.get`, so an absent meta key is harmless. -/
def ensure_ordered_translation (translation : Obj) (meta : Obj) : Obj :=
  filter_empty_fields
    [ ("content", pyGet translation "content" .null),
      ("examples", pyGet translation "examples" .null),
      ("source_title", pyGet translation "source_title" (pyGet meta "source_title" .null)),
      ("source_link", pyGet translation "source_link" (pyGet meta "source_link" .null)) ]

/-- `[ensure_ordered_translation(t, meta) for t in ...]`. -/
def norm_translations (ts : List JValue) (meta : Obj) :
    Except String (List Obj) :=
  match ts with
  | [] => .ok []
  | t :: rest => do
    let o ← asObj t
    let rs ← norm_translations rest meta
    return ensure_ordered_translation o meta :: rs

/-- `ensure_ordered_entry` of `collect_phrasebooks.py`:
`entry.get("translations")` returns `None` when the key is absent, and
iterating `None` raises `TypeError`. -/
def ensure_ordered_entry (entry : Obj) (meta : Obj) : Except String Obj := do
  let ts ← pyIter (pyGet entry "translations" .null)
  let translations ← norm_translations ts meta
  let data : Obj :=
    [ ("phrase", pyGet entry "phrase" .null),
      ("categories", pyGet entry "categories" .null),
      ("usage_note", pyGet entry "usage_note" .null),
      ("translations", .arr (translations.map .obj)) ]
  return filter_empty_fields data

/-- The generator consumed by `list.extend`. -/
def norm_entries (es : List JValue) (meta : Obj) : Except String (List Obj) :=
  match es with
  | [] => .ok []
  | e :: rest => do
    let o ← asObj e
    let r ← ensure_ordered_entry o meta
    let rs ← norm_entries rest meta
    return r :: rs

/-- Per-file work of the loop body of `collect_phrasebooks`. -/
def batchParts (file : JValue) : Except String (String × Obj × List Obj) := do
  let metaV ← pySubscript file "meta"
  let entriesV ← pySubscript file "entries"
  let lang ← pySubscript metaV "lang"
  let tlang ← pySubscript metaV "translation_lang"
  let filename := "phrasebook_" ++ pyStr lang ++ "_" ++ pyStr tlang ++ ".json"
  let meta ← asObj metaV
  let rawEntries ← pyIter entriesV
  let normEntries ← norm_entries rawEntries meta
  return (filename, [("lang", lang), ("translation_lang", tlang)], normEntries)

/-- Loop body of `collect_phrasebooks`. -/
def processFile (m : MergedMap) (file : JValue) : Except String MergedMap := do
  let (filename, newMeta, normEntries) ← batchParts file
  return updateGroup m filename newMeta normEntries

/-- `collect_phrasebooks`, abstracted over the discovered parsed files. -/
def collect_phrasebooks (files : List JValue) : Except String MergedMap :=
  files.foldlM processFile []

end phrasebooks

/-- Canonical field order of a dictionary Definition. -/
def definitionOrder : List String :=
  ["description", "pos", "origin", "usage_note", "synonyms", "antonyms",
   "inflections", "examples", "source_title", "source_link"]

/-- Canonical field order of a phrasebook Translation. -/
def translationOrder : List String :=
  ["content", "examples", "source_title", "source_link"]

/-! ### Equation lemmas exposing the control flow of the fallible functions -/

lemma ensure_ordered_definition_eq (d m : Obj) :
    dictionaries.ensure_ordered_definition d m =
      match pySubscript (.obj m) "source_title" with
      | .error e => .error e
      | .ok mst => .ok (dictionaries.filter_empty_fields
          [ ("description", pyGet d "description" .null),
            ("pos", pyGet d "pos" .null),
            ("origin", pyGet d "origin" .null),
            ("usage_note", pyGet d "usage_note" .null),
            ("synonyms", pyGet d "synonyms" (.arr [])),
            ("antonyms", pyGet d "antonyms" (.arr [])),
            ("inflections", pyGet d "inflections" (.arr [])),
            ("examples", pyGet d "examples" (.arr [])),
            ("source_title", pyGet d "source_title" mst),
            ("source_link", pyGet d "source_link" (pyGet m "source_link" .null)) ]) := by
  unfold dictionaries.ensure_ordered_definition
  cases pySubscript (.obj m) "source_title" with
  | error e => rfl
  | ok mst => rfl

lemma dict_ensure_ordered_entry_eq (entry m : Obj) :
    dictionaries.ensure_ordered_entry entry m =
      match pyIter (pyGet entry "definitions" (.arr [])) with
      | .error e => .error e
      | .ok ds =>
        match dictionaries.norm_definitions ds m with
        | .error e => .error e
        | .ok definitions => .ok (dictionaries.filter_empty_fields
            [ ("word", pyGet entry "word" .null),
              ("definitions", .arr (definitions.map .obj)) ]) := by
  unfold dictionaries.ensure_ordered_entry
  simp only [bind, Except.instMonad]
  cases pyIter (pyGet entry "definitions" (.arr [])) with
  | error e => rfl
  | ok ds =>
    simp only [Except.bind]
    cases dictionaries.norm_definitions ds m with
    | error e => rfl
    | ok definitions => rfl

lemma pb_ensure_ordered_entry_eq (entry m : Obj) :
    phrasebooks.ensure_ordered_entry entry m =
      match pyIter (pyGet entry "translations" .null) with
      | .error e => .error e
      | .ok ts =>
        match phrasebooks.norm_translations ts m with
        | .error e => .error e
        | .ok translations => .ok (phrasebooks.filter_empty_fields
            [ ("phrase", pyGet entry "phrase" .null),
              ("categories", pyGet entry "categories" .null),
              ("usage_note", pyGet entry "usage_note" .null),
              ("translations", .arr (translations.map .obj)) ]) := by
  unfold phrasebooks.ensure_ordered_entry
  simp only [bind, Except.instMonad]
  cases pyIter (pyGet entry "translations" .null) with
  | error e => rfl
  | ok ts =>
    simp only [Except.bind]
    cases phrasebooks.norm_translations ts m with
    | error e => rfl
    | ok translations => rfl

lemma dict_processFile_eq (m : MergedMap) (f : JValue) :
    dictionaries.processFile m f =
      match dictionaries.batchParts f with
      | .error e => .error e
      | .ok (k, nm, es) => .ok (updateGroup m k nm es) := by
  unfold dictionaries.processFile
  cases dictionaries.batchParts f with
  | error e => rfl
  | ok out =>
    obtain ⟨k, nm, es⟩ := out
    rfl

lemma pb_processFile_eq (m : MergedMap) (f : JValue) :
    phrasebooks.processFile m f =
      match phrasebooks.batchParts f with
      | .error e => .error e
      | .ok (k, nm, es) => .ok (updateGroup m k nm es) := by
  unfold phrasebooks.processFile
  cases phrasebooks.batchParts f with
  | error e => rfl
  | ok out =>
    obtain ⟨k, nm, es⟩ := out
    rfl

/-! ### Pruning lemmas -/

lemma mem_dict_filter_empty_fields {data : Obj} {kv : String × JValue} :
    kv ∈ dictionaries.filter_empty_fields data ↔
      kv ∈ data ∧ isEmptyVal kv.2 = false := by
  simp [dictionaries.filter_empty_fields, List.mem_filter]

lemma mem_pb_filter_empty_fields {data : Obj} {kv : String × JValue} :
    kv ∈ phrasebooks.filter_empty_fields data ↔
      kv ∈ data ∧ isEmptyVal kv.2 = false := by
  simp [phrasebooks.filter_empty_fields, List.mem_filter]

lemma isEmptyVal_eq_false_iff {v : JValue} :
    isEmptyVal v = false ↔ v ≠ .null ∧ v ≠ .str "" ∧ v ≠ .arr [] := by
  cases v with
  | null => simp [isEmptyVal]
  | bool b => simp [isEmptyVal]
  | num n => simp [isEmptyVal]
  | str s => simp [isEmptyVal]
  | arr xs => cases xs <;> simp [isEmptyVal]
  | obj fs => simp [isEmptyVal]

lemma dict_filter_keys_sublist (data : Obj) :
    ((dictionaries.filter_empty_fields data).map Prod.fst).Sublist
      (data.map Prod.fst) :=
  (List.filter_sublist data).map Prod.fst

lemma pb_filter_keys_sublist (data : Obj) :
    ((phrasebooks.filter_empty_fields data).map Prod.fst).Sublist
      (data.map Prod.fst) :=
  (List.filter_sublist data).map Prod.fst

/-! ### Aggregation lemmas -/

lemma entriesOf_nil (k : String) : entriesOf [] k = [] := rfl

lemma entriesOf_cons (k2 : String) (g : AggGroup) (rest : MergedMap) (k' : String) :
    entriesOf ((k2, g) :: rest) k' =
      if k2 = k' then g.entries else entriesOf rest k' := by
  by_cases h : k2 = k' <;> simp [entriesOf, groupLookup, h]

lemma entriesOf_updateGroup (m : MergedMap) (k k' : String) (nm : Obj)
    (ne : List Obj) :
    entriesOf (updateGroup m k nm ne) k' =
      entriesOf m k' ++ (if k = k' then ne else []) := by
  induction m with
  | nil =>
    by_cases h : k = k'
    · subst h; simp [updateGroup, entriesOf_cons, entriesOf_nil]
    · simp [updateGroup, entriesOf_cons, entriesOf_nil, h]
  | cons hd tl ih =>
    obtain ⟨k2, g⟩ := hd
    by_cases h2 : k2 = k
    · subst h2
      by_cases h' : k2 = k'
      · subst h'
        simp [updateGroup, entriesOf_cons]
      · simp [updateGroup, entriesOf_cons, h']
    · rw [show updateGroup ((k2, g) :: tl) k nm ne
            = (k2, g) :: updateGroup tl k nm ne by simp [updateGroup, h2]]
      by_cases h' : k2 = k'
      · subst h'
        have hkk : ¬ k = k2 := fun hh => h2 hh.symm
        simp [entriesOf_cons, hkk]
      · simp [entriesOf_cons, h', ih]

lemma mem_outputFilenames_updateGroup_self (m : MergedMap) (k : String)
    (nm : Obj) (ne : List Obj) :
    k ∈ outputFilenames (updateGroup m k nm ne) := by
  induction m with
  | nil => simp [updateGroup, outputFilenames]
  | cons hd tl ih =>
    obtain ⟨k2, g⟩ := hd
    by_cases h2 : k2 = k
    · subst h2; simp [updateGroup, outputFilenames]
    · simp only [updateGroup, h2, if_false, outputFilenames, List.map_cons,
        List.mem_cons]
      exact Or.inr ih

lemma mem_outputFilenames_updateGroup_mono (m : MergedMap) (k k' : String)
    (nm : Obj) (ne : List Obj) (h : k' ∈ outputFilenames m) :
    k' ∈ outputFilenames (updateGroup m k nm ne) := by
  induction m with
  | nil => simp [outputFilenames] at h
  | cons hd tl ih =>
    obtain ⟨k2, g⟩ := hd
    simp only [outputFilenames, List.map_cons, List.mem_cons] at h
    by_cases h2 : k2 = k
    · subst h2
      have hu : updateGroup ((k2, g) :: tl) k2 nm ne
          = (k2, ⟨nm, g.entries ++ ne⟩) :: tl := by simp [updateGroup]
      rw [hu]
      simpa [outputFilenames] using h
    · simp only [updateGroup, h2, if_false, outputFilenames, List.map_cons,
        List.mem_cons]
      cases h with
      | inl h => exact Or.inl h
      | inr h => exact Or.inr (ih h)

/-- The entries a single parsed file contributes to the group keyed `k`
(dictionaries): its normalized entry list when its filename is `k`, nothing
otherwise or when processing it fails. -/
def dictContrib (k : String) (f : JValue) : List Obj :=
  match dictionaries.batchParts f with
  | .ok (k2, _, es) => if k2 = k then es else []
  | .error _ => []

/-- Phrasebook counterpart of `dictContrib`. -/
def pbContrib (k : String) (f : JValue) : List Obj :=
  match phrasebooks.batchParts f with
  | .ok (k2, _, es) => if k2 = k then es else []
  | .error _ => []

lemma dict_foldl_entries :
    ∀ (fs : List JValue) (acc m : MergedMap),
      List.foldlM dictionaries.processFile acc fs = .ok m →
      ∀ k, entriesOf m k = entriesOf acc k ++ (fs.map (dictContrib k)).flatten := by
  intro fs
  induction fs with
  | nil =>
    intro acc m h k
    rw [List.foldlM_nil] at h
    injection h with h
    subst h
    simp
  | cons f rest ih =>
    intro acc m h k
    rw [List.foldlM_cons] at h
    simp only [bind, Except.instMonad] at h
    rw [dict_processFile_eq] at h
    cases hb : dictionaries.batchParts f with
    | error e =>
      rw [hb] at h
      simp only [Except.bind] at h
      cases h
    | ok out =>
      obtain ⟨k2, nm, es⟩ := out
      rw [hb] at h
      simp only [Except.bind] at h
      have hrec := ih (updateGroup acc k2 nm es) m h k
      rw [hrec, entriesOf_updateGroup]
      simp only [dictContrib, hb, List.map_cons, List.flatten_cons,
        List.append_assoc]

lemma pb_foldl_entries :
    ∀ (fs : List JValue) (acc m : MergedMap),
      List.foldlM phrasebooks.processFile acc fs = .ok m →
      ∀ k, entriesOf m k = entriesOf acc k ++ (fs.map (pbContrib k)).flatten := by
  intro fs
  induction fs with
  | nil =>
    intro acc m h k
    rw [List.foldlM_nil] at h
    injection h with h
    subst h
    simp
  | cons f rest ih =>
    intro acc m h k
    rw [List.foldlM_cons] at h
    simp only [bind, Except.instMonad] at h
    rw [pb_processFile_eq] at h
    cases hb : phrasebooks.batchParts f with
    | error e =>
      rw [hb] at h
      simp only [Except.bind] at h
      cases h
    | ok out =>
      obtain ⟨k2, nm, es⟩ := out
      rw [hb] at h
      simp only [Except.bind] at h
      have hrec := ih (updateGroup acc k2 nm es) m h k
      rw [hrec, entriesOf_updateGroup]
      simp only [pbContrib, hb, List.map_cons, List.flatten_cons,
        List.append_assoc]

lemma dict_foldl_keys :
    ∀ (fs : List JValue) (acc m : MergedMap),
      List.foldlM dictionaries.processFile acc fs = .ok m →
      (∀ k', k' ∈ outputFilenames acc → k' ∈ outputFilenames m) ∧
      (∀ f k nm es, f ∈ fs → dictionaries.batchParts f = .ok (k, nm, es) →
        k ∈ outputFilenames m) := by
  intro fs
  induction fs with
  | nil =>
    intro acc m h
    rw [List.foldlM_nil] at h
    injection h with h
    subst h
    exact ⟨fun k' hk => hk, fun f k nm es hf => absurd hf (List.not_mem_nil f)⟩
  | cons f rest ih =>
    intro acc m h
    rw [List.foldlM_cons] at h
    simp only [bind, Except.instMonad] at h
    rw [dict_processFile_eq] at h
    cases hb : dictionaries.batchParts f with
    | error e =>
      rw [hb] at h
      simp only [Except.bind] at h
      cases h
    | ok out =>
      obtain ⟨k2, nm2, es2⟩ := out
      rw [hb] at h
      simp only [Except.bind] at h
      have hrec := ih (updateGroup acc k2 nm2 es2) m h
      refine ⟨fun k' hk => hrec.1 k' (mem_outputFilenames_updateGroup_mono _ _ _ _ _ hk), ?_⟩
      intro f' k nm es hf' hbf'
      rcases List.mem_cons.mp hf' with hf' | hf'
      · subst hf'
        rw [hb] at hbf'
        injection hbf' with hbf'
        injection hbf' with h1 h2
        subst h1
        exact hrec.1 k2 (mem_outputFilenames_updateGroup_self _ _ _ _)
      · exact hrec.2 f' k nm es hf' hbf'

lemma pb_foldl_keys :
    ∀ (fs : List JValue) (acc m : MergedMap),
      List.foldlM phrasebooks.processFile acc fs = .ok m →
      (∀ k', k' ∈ outputFilenames acc → k' ∈ outputFilenames m) ∧
      (∀ f k nm es, f ∈ fs → phrasebooks.batchParts f = .ok (k, nm, es) →
        k ∈ outputFilenames m) := by
  intro fs
  induction fs with
  | nil =>
    intro acc m h
    rw [List.foldlM_nil] at h
    injection h with h
    subst h
    exact ⟨fun k' hk => hk, fun f k nm es hf => absurd hf (List.not_mem_nil f)⟩
  | cons f rest ih =>
    intro acc m h
    rw [List.foldlM_cons] at h
    simp only [bind, Except.instMonad] at h
    rw [pb_processFile_eq] at h
    cases hb : phrasebooks.batchParts f with
    | error e =>
      rw [hb] at h
      simp only [Except.bind] at h
      cases h
    | ok out =>
      obtain ⟨k2, nm2, es2⟩ := out
      rw [hb] at h
      simp only [Except.bind] at h
      have hrec := ih (updateGroup acc k2 nm2 es2) m h
      refine ⟨fun k' hk => hrec.1 k' (mem_outputFilenames_updateGroup_mono _ _ _ _ _ hk), ?_⟩
      intro f' k nm es hf' hbf'
      rcases List.mem_cons.mp hf' with hf' | hf'
      · subst hf'
        rw [hb] at hbf'
        injection hbf' with hbf'
        injection hbf' with h1 h2
        subst h1
        exact hrec.1 k2 (mem_outputFilenames_updateGroup_self _ _ _ _)
      · exact hrec.2 f' k nm es hf' hbf'

lemma dict_foldl_batches_ok :
    ∀ (fs : List JValue) (acc m : MergedMap),
      List.foldlM dictionaries.processFile acc fs = .ok m →
      ∀ f ∈ fs, (dictionaries.batchParts f).isOk = true := by
  intro fs
  induction fs with
  | nil => intro acc m h f hf; exact absurd hf (List.not_mem_nil f)
  | cons f rest ih =>
    intro acc m h f' hf'
    rw [List.foldlM_cons] at h
    simp only [bind, Except.instMonad] at h
    rw [dict_processFile_eq] at h
    cases hb : dictionaries.batchParts f with
    | error e =>
      rw [hb] at h
      simp only [Except.bind] at h
      cases h
    | ok out =>
      obtain ⟨k2, nm2, es2⟩ := out
      rw [hb] at h
      simp only [Except.bind] at h
      rcases List.mem_cons.mp hf' with hf' | hf'
      · subst hf'; rw [hb]; rfl
      · exact ih (updateGroup acc k2 nm2 es2) m h f' hf'

lemma pb_foldl_batches_ok :
    ∀ (fs : List JValue) (acc m : MergedMap),
      List.foldlM phrasebooks.processFile acc fs = .ok m →
      ∀ f ∈ fs, (phrasebooks.batchParts f).isOk = true := by
  intro fs
  induction fs with
  | nil => intro acc m h f hf; exact absurd hf (List.not_mem_nil f)
  | cons f rest ih =>
    intro acc m h f' hf'
    rw [List.foldlM_cons] at h
    simp only [bind, Except.instMonad] at h
    rw [pb_processFile_eq] at h
    cases hb : phrasebooks.batchParts f with
    | error e =>
      rw [hb] at h
      simp only [Except.bind] at h
      cases h
    | ok out =>
      obtain ⟨k2, nm2, es2⟩ := out
      rw [hb] at h
      simp only [Except.bind] at h
      rcases List.mem_cons.mp hf' with hf' | hf'
      · subst hf'; rw [hb]; rfl
      · exact ih (updateGroup acc k2 nm2 es2) m h f' hf'

lemma lookupKey_append (o1 o2 : Obj) (k : String) :
    lookupKey (o1 ++ o2) k =
      match lookupKey o1 k with
      | some v => some v
      | none => lookupKey o2 k := by
  induction o1 with
  | nil => rfl
  | cons hd tl ih =>
    obtain ⟨k2, v⟩ := hd
    by_cases h : k2 = k <;> simp [lookupKey, h, ih]

/-! ### Claims -/

/-- C1: the claim says default inheritance for `source_title`/`source_link`
never fails when the batch meta lacks the field.  The dictionary code uses
`meta["source_title"]` (not `meta.get`), so a meta without `source_title`
raises `KeyError` — even when the definition supplies its own value.  The
phrasebook translation path behaves exactly as the claim states. -/
theorem C1_dict_meta_source_title_keyerror :
    dictionaries.ensure_ordered_definition
        [("description", .str "dog")]
        [("lang", .str "tgl"), ("definition_lang", .str "eng")]
      = .error "KeyError: source_title" ∧
    dictionaries.ensure_ordered_definition
        [("description", .str "dog"), ("source_title", .str "Y")]
        [("lang", .str "tgl"), ("definition_lang", .str "eng")]
      = .error "KeyError: source_title" ∧
    phrasebooks.ensure_ordered_translation
        [("content", .str "c")] [("source_title", .str "X")]
      = [("content", .str "c"), ("source_title", .str "X")] ∧
    phrasebooks.ensure_ordered_translation
        [("content", .str "c"), ("source_title", .str "Y")]
        [("source_title", .str "X")]
      = [("content", .str "c"), ("source_title", .str "Y")] ∧
    phrasebooks.ensure_ordered_translation [("content", .str "c")] []
      = [("content", .str "c")] :=
  ⟨rfl, rfl, rfl, rfl, rfl⟩

/-- C2: pruning invariant — every record emitted by normalization
(dictionary entry, Definition, phrasebook entry, Translation) has no key
mapped to `None`, `""` or an empty sequence. -/
theorem C2_pruning_invariant :
    (∀ (entry meta r : Obj),
      dictionaries.ensure_ordered_entry entry meta = .ok r →
      ∀ kv ∈ r, isEmptyVal kv.2 = false) ∧
    (∀ (d meta r : Obj),
      dictionaries.ensure_ordered_definition d meta = .ok r →
      ∀ kv ∈ r, isEmptyVal kv.2 = false) ∧
    (∀ (entry meta r : Obj),
      phrasebooks.ensure_ordered_entry entry meta = .ok r →
      ∀ kv ∈ r, isEmptyVal kv.2 = false) ∧
    (∀ (t meta : Obj), ∀ kv ∈ phrasebooks.ensure_ordered_translation t meta,
      isEmptyVal kv.2 = false) := by
  refine ⟨?_, ?_, ?_, ?_⟩
  · intro entry m r h kv hkv
    rw [dict_ensure_ordered_entry_eq] at h
    split at h
    · exact Except.noConfusion h
    · split at h
      · exact Except.noConfusion h
      · injection h with h
        subst h
        exact (mem_dict_filter_empty_fields.mp hkv).2
  · intro d m r h kv hkv
    rw [ensure_ordered_definition_eq] at h
    split at h
    · exact Except.noConfusion h
    · injection h with h
      subst h
      exact (mem_dict_filter_empty_fields.mp hkv).2
  · intro entry m r h kv hkv
    rw [pb_ensure_ordered_entry_eq] at h
    split at h
    · exact Except.noConfusion h
    · split at h
      · exact Except.noConfusion h
      · injection h with h
        subst h
        exact (mem_pb_filter_empty_fields.mp hkv).2
  · intro t m kv hkv
    unfold phrasebooks.ensure_ordered_translation at hkv
    exact (mem_pb_filter_empty_fields.mp hkv).2

/-- C2 witness: concrete instances of all four record kinds. -/
theorem C2_pruning_invariant_witness :
    isEmptyVal (JValue.arr [.obj [("description", JValue.str "dog"),
      ("source_title", JValue.str "S")]]) = false ∧
    isEmptyVal (JValue.str "dog") = false ∧
    isEmptyVal (JValue.str "hi") = false ∧
    isEmptyVal (JValue.str "hello") = false := by
  refine ⟨?_, ?_, ?_, ?_⟩
  · exact C2_pruning_invariant.1
      [("definitions", .arr [.obj [("description", .str "dog")]])]
      [("source_title", .str "S")]
      [("definitions", .arr [.obj [("description", .str "dog"),
        ("source_title", .str "S")]])] rfl
      ("definitions", .arr [.obj [("description", .str "dog"),
        ("source_title", .str "S")]]) (List.mem_cons_self _ _)
  · exact C2_pruning_invariant.2.1
      [("description", .str "dog")] [("source_title", .str "S")]
      [("description", .str "dog"), ("source_title", .str "S")] rfl
      ("description", .str "dog") (List.mem_cons_self _ _)
  · exact C2_pruning_invariant.2.2.1
      [("phrase", .str "hi"), ("translations", .arr [])] []
      [("phrase", .str "hi")] rfl
      ("phrase", .str "hi") (List.mem_cons_self _ _)
  · exact C2_pruning_invariant.2.2.2
      [("content", .str "hello")] []
      ("content", .str "hello") (List.mem_cons_self _ _)

/-- C3: field-order invariant — the present keys of an emitted Definition
(resp. Translation) are an in-order subsequence of the canonical order. -/
theorem C3_field_order_invariant :
    (∀ (d meta r : Obj),
      dictionaries.ensure_ordered_definition d meta = .ok r →
      (r.map Prod.fst).Sublist definitionOrder) ∧
    (∀ (t meta : Obj),
      ((phrasebooks.ensure_ordered_translation t meta).map Prod.fst).Sublist
        translationOrder) := by
  constructor
  · intro d m r h
    rw [ensure_ordered_definition_eq] at h
    split at h
    · exact Except.noConfusion h
    · injection h with h
      subst h
      exact dict_filter_keys_sublist _
  · intro t m
    exact pb_filter_keys_sublist _

/-- C3 witness: a pruned Definition and Translation keep canonical order. -/
theorem C3_field_order_invariant_witness :
    ((([("description", JValue.str "dog"), ("source_title", JValue.str "S")] :
        Obj).map Prod.fst).Sublist definitionOrder) ∧
    (((phrasebooks.ensure_ordered_translation [("content", JValue.str "c")]
        []).map Prod.fst).Sublist translationOrder) :=
  ⟨C3_field_order_invariant.1 [("description", .str "dog")]
      [("source_title", .str "S")]
      [("description", .str "dog"), ("source_title", .str "S")] rfl,
   C3_field_order_invariant.2 [("content", .str "c")] []⟩

/-- C7: `filter_empty_fields` removes exactly the values equal to `None`,
`""` or `[]`; in particular `False` and `0` survive pruning. -/
theorem C7_false_zero_survive :
    (∀ (data : Obj) (k : String), (k, JValue.bool false) ∈ data →
      (k, JValue.bool false) ∈ dictionaries.filter_empty_fields data) ∧
    (∀ (data : Obj) (k : String), (k, JValue.num 0) ∈ data →
      (k, JValue.num 0) ∈ dictionaries.filter_empty_fields data) ∧
    (∀ (data : Obj) (k : String), (k, JValue.bool false) ∈ data →
      (k, JValue.bool false) ∈ phrasebooks.filter_empty_fields data) ∧
    (∀ (data : Obj) (k : String), (k, JValue.num 0) ∈ data →
      (k, JValue.num 0) ∈ phrasebooks.filter_empty_fields data) ∧
    (∀ (data : Obj) (kv : String × JValue),
      kv ∈ dictionaries.filter_empty_fields data ↔
        kv ∈ data ∧ kv.2 ≠ .null ∧ kv.2 ≠ .str "" ∧ kv.2 ≠ .arr []) ∧
    (∀ (data : Obj) (kv : String × JValue),
      kv ∈ phrasebooks.filter_empty_fields data ↔
        kv ∈ data ∧ kv.2 ≠ .null ∧ kv.2 ≠ .str "" ∧ kv.2 ≠ .arr []) := by
  refine ⟨?_, ?_, ?_, ?_, ?_, ?_⟩
  · intro data k h
    exact mem_dict_filter_empty_fields.mpr ⟨h, rfl⟩
  · intro data k h
    exact mem_dict_filter_empty_fields.mpr ⟨h, rfl⟩
  · intro data k h
    exact mem_pb_filter_empty_fields.mpr ⟨h, rfl⟩
  · intro data k h
    exact mem_pb_filter_empty_fields.mpr ⟨h, rfl⟩
  · intro data kv
    rw [mem_dict_filter_empty_fields, isEmptyVal_eq_false_iff]
  · intro data kv
    rw [mem_pb_filter_empty_fields, isEmptyVal_eq_false_iff]

/-- C7 witness: a `False`-valued and a `0`-valued field survive pruning. -/
theorem C7_false_zero_survive_witness :
    ("flag", JValue.bool false) ∈
      dictionaries.filter_empty_fields
        [("flag", JValue.bool false), ("gone", JValue.null)] ∧
    ("n", JValue.num 0) ∈
      phrasebooks.filter_empty_fields
        [("n", JValue.num 0), ("gone", JValue.str "")] :=
  ⟨C7_false_zero_survive.1 [("flag", .bool false), ("gone", .null)] "flag"
      (List.mem_cons_self _ _),
   C7_false_zero_survive.2.2.2.1 [("n", .num 0), ("gone", .str "")] "n"
      (List.mem_cons_self _ _)⟩

/-- C9: the whole aggregation is a pure function of the ordered sequence of
batch files, so re-running it on identical inputs yields identical output
(same group keys in the same order, same key order in every record, same
entry order in every group). -/
theorem C9_rerun_deterministic :
    ∀ (files1 files2 : List JValue), files1 = files2 →
      dictionaries.collect_dictionaries files1
        = dictionaries.collect_dictionaries files2 ∧
      phrasebooks.collect_phrasebooks files1
        = phrasebooks.collect_phrasebooks files2 := by
  intro f1 f2 h
  subst h
  exact ⟨rfl, rfl⟩

/-- C9 witness at a concrete batch list. -/
theorem C9_rerun_deterministic_witness :
    dictionaries.collect_dictionaries
        [.obj [("meta", .obj [("lang", .str "tgl"),
          ("definition_lang", .str "eng")]), ("entries", .arr [])]]
      = dictionaries.collect_dictionaries
        [.obj [("meta", .obj [("lang", .str "tgl"),
          ("definition_lang", .str "eng")]), ("entries", .arr [])]] ∧
    phrasebooks.collect_phrasebooks
        [.obj [("meta", .obj [("lang", .str "tgl"),
          ("definition_lang", .str "eng")]), ("entries", .arr [])]]
      = phrasebooks.collect_phrasebooks
        [.obj [("meta", .obj [("lang", .str "tgl"),
          ("definition_lang", .str "eng")]), ("entries", .arr [])]] :=
  C9_rerun_deterministic _ _ rfl

/-- C4: grouping invariant — for batches sharing a group key, all their
entries land in the same output group, concatenated in processing order
(B1's entries precede B2's when B1 is processed first), each batch's
internal order preserved and nothing deduplicated. -/
theorem C4_grouping_invariant :
    (∀ (pre mid post : List JValue) (B1 B2 : JValue) (k : String)
        (nm1 nm2 : Obj) (es1 es2 : List Obj) (m : MergedMap),
      dictionaries.batchParts B1 = .ok (k, nm1, es1) →
      dictionaries.batchParts B2 = .ok (k, nm2, es2) →
      dictionaries.collect_dictionaries (pre ++ B1 :: (mid ++ B2 :: post))
        = .ok m →
      entriesOf m k =
        (pre.map (dictContrib k)).flatten ++ es1 ++
          (mid.map (dictContrib k)).flatten ++ es2 ++
          (post.map (dictContrib k)).flatten) ∧
    (∀ (pre mid post : List JValue) (B1 B2 : JValue) (k : String)
        (nm1 nm2 : Obj) (es1 es2 : List Obj) (m : MergedMap),
      phrasebooks.batchParts B1 = .ok (k, nm1, es1) →
      phrasebooks.batchParts B2 = .ok (k, nm2, es2) →
      phrasebooks.collect_phrasebooks (pre ++ B1 :: (mid ++ B2 :: post))
        = .ok m →
      entriesOf m k =
        (pre.map (pbContrib k)).flatten ++ es1 ++
          (mid.map (pbContrib k)).flatten ++ es2 ++
          (post.map (pbContrib k)).flatten) := by
  constructor
  · intro pre mid post B1 B2 k nm1 nm2 es1 es2 m h1 h2 hc
    have hchar := dict_foldl_entries (pre ++ B1 :: (mid ++ B2 :: post)) [] m hc k
    have hc1 : dictContrib k B1 = es1 := by simp [dictContrib, h1]
    have hc2 : dictContrib k B2 = es2 := by simp [dictContrib, h2]
    simp only [entriesOf_nil, List.nil_append, List.map_append, List.map_cons,
      List.flatten_append, List.flatten_cons, hc1, hc2,
      List.append_assoc] at hchar
    simp only [List.append_assoc]
    exact hchar
  · intro pre mid post B1 B2 k nm1 nm2 es1 es2 m h1 h2 hc
    have hchar := pb_foldl_entries (pre ++ B1 :: (mid ++ B2 :: post)) [] m hc k
    have hc1 : pbContrib k B1 = es1 := by simp [pbContrib, h1]
    have hc2 : pbContrib k B2 = es2 := by simp [pbContrib, h2]
    simp only [entriesOf_nil, List.nil_append, List.map_append, List.map_cons,
      List.flatten_append, List.flatten_cons, hc1, hc2,
      List.append_assoc] at hchar
    simp only [List.append_assoc]
    exact hchar

/-- C4 witness: two dictionary batches and two phrasebook batches with the
same language pair are concatenated into one group in processing order. -/
theorem C4_grouping_invariant_witness :
    entriesOf
      [("dictionary_tgl_eng.json",
        ⟨[("lang", .str "tgl"), ("definition_lang", .str "eng")],
         [[("word", .str "aso"),
           ("definitions", .arr [.obj [("description", .str "dog"),
             ("source_title", .str "S1")]])],
          [("word", .str "pusa"),
           ("definitions", .arr [.obj [("description", .str "cat"),
             ("source_title", .str "S2")]])]]⟩)]
      "dictionary_tgl_eng.json" =
      [[("word", .str "aso"),
        ("definitions", .arr [.obj [("description", .str "dog"),
          ("source_title", .str "S1")]])],
       [("word", .str "pusa"),
        ("definitions", .arr [.obj [("description", .str "cat"),
          ("source_title", .str "S2")]])]] ∧
    entriesOf
      [("phrasebook_tgl_eng.json",
        ⟨[("lang", .str "tgl"), ("translation_lang", .str "eng")],
         [[("phrase", .str "hi"),
           ("translations", .arr [.obj [("content", .str "hello"),
             ("source_title", .str "T1")]])],
          [("phrase", .str "bye"),
           ("translations", .arr [.obj [("content", .str "paalam"),
             ("source_title", .str "T2")]])]]⟩)]
      "phrasebook_tgl_eng.json" =
      [[("phrase", .str "hi"),
        ("translations", .arr [.obj [("content", .str "hello"),
          ("source_title", .str "T1")]])],
       [("phrase", .str "bye"),
        ("translations", .arr [.obj [("content", .str "paalam"),
          ("source_title", .str "T2")]])]] := by
  constructor
  · exact C4_grouping_invariant.1 [] [] []
      (.obj [("meta", .obj [("lang", .str "tgl"),
        ("definition_lang", .str "eng"), ("source_title", .str "S1")]),
        ("entries", .arr [.obj [("word", .str "aso"),
          ("definitions", .arr [.obj [("description", .str "dog")]])]])])
      (.obj [("meta", .obj [("lang", .str "tgl"),
        ("definition_lang", .str "eng"), ("source_title", .str "S2")]),
        ("entries", .arr [.obj [("word", .str "pusa"),
          ("definitions", .arr [.obj [("description", .str "cat")]])]])])
      "dictionary_tgl_eng.json"
      [("lang", .str "tgl"), ("definition_lang", .str "eng")]
      [("lang", .str "tgl"), ("definition_lang", .str "eng")]
      [[("word", .str "aso"),
        ("definitions", .arr [.obj [("description", .str "dog"),
          ("source_title", .str "S1")]])]]
      [[("word", .str "pusa"),
        ("definitions", .arr [.obj [("description", .str "cat"),
          ("source_title", .str "S2")]])]]
      [("dictionary_tgl_eng.json",
        ⟨[("lang", .str "tgl"), ("definition_lang", .str "eng")],
         [[("word", .str "aso"),
           ("definitions", .arr [.obj [("description", .str "dog"),
             ("source_title", .str "S1")]])],
          [("word", .str "pusa"),
           ("definitions", .arr [.obj [("description", .str "cat"),
             ("source_title", .str "S2")]])]]⟩)]
      rfl rfl rfl
  · exact C4_grouping_invariant.2 [] [] []
      (.obj [("meta", .obj [("lang", .str "tgl"),
        ("translation_lang", .str "eng"), ("source_title", .str "T1")]),
        ("entries", .arr [.obj [("phrase", .str "hi"),
          ("translations", .arr [.obj [("content", .str "hello")]])]])])
      (.obj [("meta", .obj [("lang", .str "tgl"),
        ("translation_lang", .str "eng")]),
        ("entries", .arr [.obj [("phrase", .str "bye"),
          ("translations", .arr [.obj [("content", .str "paalam"),
            ("source_title", .str "T2")]])]])])
      "phrasebook_tgl_eng.json"
      [("lang", .str "tgl"), ("translation_lang", .str "eng")]
      [("lang", .str "tgl"), ("translation_lang", .str "eng")]
      [[("phrase", .str "hi"),
        ("translations", .arr [.obj [("content", .str "hello"),
          ("source_title", .str "T1")]])]]
      [[("phrase", .str "bye"),
        ("translations", .arr [.obj [("content", .str "paalam"),
          ("source_title", .str "T2")]])]]
      [("phrasebook_tgl_eng.json",
        ⟨[("lang", .str "tgl"), ("translation_lang", .str "eng")],
         [[("phrase", .str "hi"),
           ("translations", .arr [.obj [("content", .str "hello"),
             ("source_title", .str "T1")]])],
          [("phrase", .str "bye"),
           ("translations", .arr [.obj [("content", .str "paalam"),
             ("source_title", .str "T2")]])]]⟩)]
      rfl rfl rfl

/-- C5 counterexample: a phrasebook batch whose second entry lacks
`translations` makes the whole run fail with `TypeError` — the claim's
"logged and skipped, never aborts" is false at this input (the first,
well-formed entry is lost too). -/
theorem C5_counterexample_entry_failure_aborts_run :
    phrasebooks.collect_phrasebooks
        [.obj [("meta", .obj [("lang", .str "tgl"),
          ("translation_lang", .str "eng")]),
          ("entries", .arr
            [.obj [("phrase", .str "hi"),
              ("translations", .arr [.obj [("content", .str "hello")]])],
             .obj [("phrase", .str "oops")]])]]
      = .error "TypeError: not iterable" := rfl

/-- C5 (amended): there is no per-entry recovery — an entry whose
normalization fails makes its batch fail, and any failing batch makes the
whole collection fail; in particular a phrasebook entry with no
`translations` key always fails normalization. -/
theorem C5_amended_no_per_entry_recovery :
    (∀ (fs : List JValue) (f : JValue), f ∈ fs →
      (phrasebooks.batchParts f).isOk = false →
      (phrasebooks.collect_phrasebooks fs).isOk = false) ∧
    (∀ (entry meta : Obj), lookupKey entry "translations" = none →
      (phrasebooks.ensure_ordered_entry entry meta).isOk = false) ∧
    (∀ (fs : List JValue) (f : JValue), f ∈ fs →
      (dictionaries.batchParts f).isOk = false →
      (dictionaries.collect_dictionaries fs).isOk = false) := by
  refine ⟨?_, ?_, ?_⟩
  · intro fs f hf hbad
    cases hc : phrasebooks.collect_phrasebooks fs with
    | error e => rfl
    | ok m =>
      have hok := pb_foldl_batches_ok fs [] m hc f hf
      rw [hok] at hbad
      exact Bool.noConfusion hbad
  · intro entry m h
    rw [pb_ensure_ordered_entry_eq]
    have hget : pyGet entry "translations" .null = .null := by
      simp [pyGet, h]
    rw [hget]
    rfl
  · intro fs f hf hbad
    cases hc : dictionaries.collect_dictionaries fs with
    | error e => rfl
    | ok m =>
      have hok := dict_foldl_batches_ok fs [] m hc f hf
      rw [hok] at hbad
      exact Bool.noConfusion hbad

/-- C5 witness: concrete failing batch and entry. -/
theorem C5_amended_no_per_entry_recovery_witness :
    (phrasebooks.collect_phrasebooks
        [.obj [("meta", .obj [("lang", .str "tgl"),
          ("translation_lang", .str "eng")]),
          ("entries", .arr [.obj [("phrase", .str "oops")]])]]).isOk
      = false ∧
    (phrasebooks.ensure_ordered_entry [("phrase", .str "oops")] []).isOk
      = false ∧
    (dictionaries.collect_dictionaries [.str "not a batch"]).isOk = false :=
  ⟨C5_amended_no_per_entry_recovery.1
      [.obj [("meta", .obj [("lang", .str "tgl"),
        ("translation_lang", .str "eng")]),
        ("entries", .arr [.obj [("phrase", .str "oops")]])]]
      (.obj [("meta", .obj [("lang", .str "tgl"),
        ("translation_lang", .str "eng")]),
        ("entries", .arr [.obj [("phrase", .str "oops")]])])
      (List.mem_cons_self _ _) rfl,
   C5_amended_no_per_entry_recovery.2.1 [("phrase", .str "oops")] [] rfl,
   C5_amended_no_per_entry_recovery.2.2 [.str "not a batch"]
      (.str "not a batch") (List.mem_cons_self _ _) rfl⟩

/-- C6 counterexample: a batch with an empty `entries` list creates a group
with zero entries, and that group is still given an output file (its key is
in the merged mapping `main` writes out) — contradicting "a group with zero
entries yields no output file". -/
theorem C6_counterexample_empty_group_written :
    dictionaries.collect_dictionaries
        [.obj [("meta", .obj [("lang", .str "tgl"),
          ("definition_lang", .str "eng")]), ("entries", .arr [])]]
      = .ok [("dictionary_tgl_eng.json",
          ⟨[("lang", .str "tgl"), ("definition_lang", .str "eng")], []⟩)] ∧
    entriesOf [("dictionary_tgl_eng.json",
        ⟨[("lang", .str "tgl"), ("definition_lang", .str "eng")], []⟩)]
      "dictionary_tgl_eng.json" = [] ∧
    outputFilenames [("dictionary_tgl_eng.json",
        ⟨[("lang", .str "tgl"), ("definition_lang", .str "eng")], []⟩)]
      = ["dictionary_tgl_eng.json"] :=
  ⟨rfl, rfl, rfl⟩

/-- C6 (amended): zero batches yield no output files, but every group key
observed in a successfully processed batch yields an output file, even when
its accumulated entry list is empty — empty groups are written as files
with an empty entries list, not omitted. -/
theorem C6_amended_every_observed_key_written :
    dictionaries.collect_dictionaries [] = .ok [] ∧
    (∀ (fs : List JValue) (m : MergedMap) (f : JValue) (k : String)
        (nm : Obj) (es : List Obj),
      dictionaries.collect_dictionaries fs = .ok m → f ∈ fs →
      dictionaries.batchParts f = .ok (k, nm, es) →
      k ∈ outputFilenames m) := by
  constructor
  · rfl
  · intro fs m f k nm es hc hf hb
    exact (dict_foldl_keys fs [] m hc).2 f k nm es hf hb

/-- C6 witness: the empty-entries batch's key is among the written files. -/
theorem C6_amended_every_observed_key_written_witness :
    "dictionary_tgl_eng.json" ∈ outputFilenames
      [("dictionary_tgl_eng.json",
        ⟨[("lang", .str "tgl"), ("definition_lang", .str "eng")], []⟩)] :=
  C6_amended_every_observed_key_written.2
    [.obj [("meta", .obj [("lang", .str "tgl"),
      ("definition_lang", .str "eng")]), ("entries", .arr [])]]
    [("dictionary_tgl_eng.json",
      ⟨[("lang", .str "tgl"), ("definition_lang", .str "eng")], []⟩)]
    (.obj [("meta", .obj [("lang", .str "tgl"),
      ("definition_lang", .str "eng")]), ("entries", .arr [])])
    "dictionary_tgl_eng.json"
    [("lang", .str "tgl"), ("definition_lang", .str "eng")] []
    rfl (List.mem_cons_self _ _) rfl

/-- C8: a dictionary entry with no `definitions` key normalizes without
error, exactly as if it carried an explicitly empty `definitions` list. -/
theorem C8_missing_definitions_key_defaults_empty :
    ∀ (entry meta : Obj), lookupKey entry "definitions" = none →
      (dictionaries.ensure_ordered_entry entry meta).isOk = true ∧
      dictionaries.ensure_ordered_entry entry meta =
        dictionaries.ensure_ordered_entry
          (entry ++ [("definitions", .arr [])]) meta := by
  intro entry m h
  have hget : pyGet entry "definitions" (.arr []) = .arr [] := by
    simp [pyGet, h]
  have hget2 : pyGet (entry ++ [("definitions", .arr [])]) "definitions"
      (.arr []) = .arr [] := by
    unfold pyGet
    rw [lookupKey_append, h]
    rfl
  have hword : pyGet (entry ++ [("definitions", .arr [])]) "word" .null
      = pyGet entry "word" .null := by
    unfold pyGet
    rw [lookupKey_append]
    cases lookupKey entry "word" with
    | some v => rfl
    | none => rfl
  constructor
  · rw [dict_ensure_ordered_entry_eq, hget]
    rfl
  · rw [dict_ensure_ordered_entry_eq, dict_ensure_ordered_entry_eq, hget,
      hget2, hword]

/-- C8 witness: an entry carrying only a word. -/
theorem C8_missing_definitions_key_defaults_empty_witness :
    (dictionaries.ensure_ordered_entry [("word", .str "aso")] []).isOk
      = true ∧
    dictionaries.ensure_ordered_entry [("word", .str "aso")] [] =
      dictionaries.ensure_ordered_entry
        ([("word", .str "aso")] ++ [("definitions", .arr [])]) [] :=
  C8_missing_definitions_key_defaults_empty [("word", .str "aso")] [] rfl

/-- C10 counterexample: normalization of an entry whose `word` is absent
(resp. `None`) can still raise — through the meta `source_title` lookup of a
nested definition, or through a non-iterable `definitions` value — so
"normalization raises no error" does not hold of every entry in the claim's
class. -/
theorem C10_counterexample_wordless_entry_can_raise :
    dictionaries.ensure_ordered_entry
        [("definitions", .arr [.obj [("description", .str "dog")]])]
        [("lang", .str "tgl"), ("definition_lang", .str "eng")]
      = .error "KeyError: source_title" ∧
    dictionaries.ensure_ordered_entry
        [("word", .null), ("definitions", .num 5)] []
      = .error "TypeError: not iterable" :=
  ⟨rfl, rfl⟩

/-- C10 (amended): the `word` field is never validated and never the source
of an error — whenever normalization of an entry whose `word` is absent,
`None` or `""` returns a record, the `word` key has been pruned away (any
error comes from the nested `definitions`, never from `word`: with no
`definitions` key the entry always normalizes, whatever its `word`), so an
output entry can hold definitions without a word, or be entirely empty. -/
theorem C10_word_never_validated :
    (∀ (entry meta r : Obj),
      (lookupKey entry "word" = none ∨ lookupKey entry "word" = some .null ∨
        lookupKey entry "word" = some (.str "")) →
      dictionaries.ensure_ordered_entry entry meta = .ok r →
      "word" ∉ r.map Prod.fst) ∧
    (∀ (entry meta : Obj), lookupKey entry "definitions" = none →
      (dictionaries.ensure_ordered_entry entry meta).isOk = true) ∧
    dictionaries.ensure_ordered_entry
        [("definitions", .arr [.obj [("description", .str "dog")]])]
        [("source_title", .str "S")]
      = .ok [("definitions", .arr [.obj [("description", .str "dog"),
          ("source_title", .str "S")]])] ∧
    dictionaries.ensure_ordered_entry [] [] = .ok [] := by
  refine ⟨?_, ?_, rfl, rfl⟩
  case refine_2 =>
    intro entry m h
    have hget : pyGet entry "definitions" (.arr []) = .arr [] := by
      simp [pyGet, h]
    rw [dict_ensure_ordered_entry_eq, hget]
    rfl
  intro entry m r hw h hmem
  rw [dict_ensure_ordered_entry_eq] at h
  split at h
  · exact Except.noConfusion h
  · split at h
    · exact Except.noConfusion h
    · injection h with h
      subst h
      rw [List.mem_map] at hmem
      obtain ⟨kv, hkv, hfst⟩ := hmem
      obtain ⟨hin, hne⟩ := mem_dict_filter_empty_fields.mp hkv
      have hw' : pyGet entry "word" .null = .null ∨
          pyGet entry "word" .null = .str "" := by
        rcases hw with h' | h' | h' <;> simp [pyGet, h']
      rcases List.mem_cons.mp hin with hkv' | hkv'
      · subst hkv'
        rcases hw' with h' | h' <;> rw [h'] at hne <;> simp [isEmptyVal] at hne
      · rcases List.mem_cons.mp hkv' with hkv'' | hkv''
        · subst hkv''
          have hne2 : ("definitions" : String) ≠ "word" := by decide
          exact hne2 hfst
        · exact absurd hkv'' (List.not_mem_nil kv)

/-- C10 witness: an empty-string word is pruned from the output record, and
a definition-less entry normalizes whatever its word. -/
theorem C10_word_never_validated_witness :
    "word" ∉ (([] : Obj).map Prod.fst) ∧
    (dictionaries.ensure_ordered_entry [("word", .null)] []).isOk = true :=
  ⟨C10_word_never_validated.1 [("word", .str "")] [] []
      (Or.inr (Or.inr rfl)) rfl,
   C10_word_never_validated.2.1 [("word", .null)] [] rfl⟩
